import Mathlib

/-
Shallow embedding of the log-collector filtering engine.

Source files embedded:
  * src/src/logc_tool/logc.py  (the packaged tool; functions `parse_by_time`,
    `parse_by_key`, `remove_operator`, `and_filter`, `or_filter`,
    `restore_logs`, and the per-file filter composition in `main`)
  * src/logc.py                (the script variant; functions `filter_logs`,
    `filter_by_parameter`, `check_bounds`,
    `filter_by_multiple_keys_AND`/`_OR`)

Python strings are modelled as lists of characters (`Line`); the dynamic
value that flows from `parse_by_time` into `parse_by_key` (either a list of
lines or the bare sentinel string) is modelled by `PyVal`.  Exceptions are
modelled with `Except` over explicit error enumerations.
-/

namespace LogCollector

/-- A Python string (one log line, a keyword, or a time expression). -/
abbrev Line := List Char

/-- The whitespace set of Python's `str.strip()` (ASCII part). -/
def pyIsSpace (c : Char) : Bool :=
  c == ' ' || c == '\t' || c == '\n' || c == '\r' || c == '\x0b' || c == '\x0c'

/-- Python `s.strip()`: drop leading and trailing whitespace. -/
def pyStrip (s : Line) : Line :=
  ((s.dropWhile pyIsSpace).reverse.dropWhile pyIsSpace).reverse

/-- Python `s.lower()` (ASCII letters; log content here is ASCII). -/
def lowerL (s : Line) : Line := s.map Char.toLower

/-- Substring-order helper: does `p` occur at the very start of `s`? -/
def isPrefixL : Line → Line → Bool
  | [], _ => true
  | _ :: _, [] => false
  | a :: as, b :: bs => a == b && isPrefixL as bs

/-- Python's `needle in hay` for strings: contiguous substring containment
(the empty needle is contained in every string). -/
def inStr (needle : Line) : Line → Bool
  | [] => needle.isEmpty
  | c :: rest => isPrefixL needle (c :: rest) || inStr needle rest

/- ## The two time-format regular expressions

`logc.py` validates `-t` with `re.search` against
  BSD_FORMAT  = ^(Jan|...|Dec)  ?\d?\d( \d\d(:\d\d(:\d\d)?)?)?( to ... )?$
  SD_SYSLOG   = \d\d\d\d-\d\d-\d\d(T\d\d(:\d\d(:\d\d)?)?)?( to ... )?
both with re.IGNORECASE.  The patterns contain no unbounded repetition, so
we embed them as nondeterministic matchers returning every possible
remainder of the input after a match starting at the current position. -/

/-- All remainders after matching the literal `lit` case-insensitively
(re.IGNORECASE folds ASCII case on both sides). -/
def matchLitCI : Line → Line → List Line
  | [], s => [s]
  | _ :: _, [] => []
  | a :: as, c :: cs => if a.toLower == c.toLower then matchLitCI as cs else []

/-- Sequencing of matchers. -/
def mseq (f g : Line → List Line) (s : Line) : List Line :=
  (f s).flatMap g

/-- Optional group `(...)?`: match nothing or match `f`. -/
def mopt (f : Line → List Line) (s : Line) : List Line :=
  s :: f s

/-- `\d` (ASCII digits; Python's \d also admits other Unicode digits, which
never occur in the claims' inputs). -/
def mdigit : Line → List Line
  | [] => []
  | c :: cs => if c.isDigit then [cs] else []

/-- `\d\d`. -/
def md2 : Line → List Line := mseq mdigit mdigit

/-- The twelve month alternatives of BSD_FORMAT (case-insensitive). -/
def monthM (s : Line) : List Line :=
  [("jan").toList, ("feb").toList, ("mar").toList, ("apr").toList,
   ("may").toList, ("jun").toList, ("jul").toList, ("aug").toList,
   ("sep").toList, ("oct").toList, ("nov").toList, ("dec").toList].flatMap
    (fun m => matchLitCI m s)

/-- The literal `" to "` separator (case-insensitive inside the regexes). -/
def toSepM : Line → List Line := matchLitCI ((" to ").toList)

/-- The separator as a plain string, used with Python's case-sensitive
`" to " in time` / `time.split(" to ")`. -/
def toSepL : Line := (" to ").toList

/-- `( \d\d(:\d\d(:\d\d)?)?)` : the optional HH[:MM[:SS]] tail. -/
def hmsM : Line → List Line :=
  mseq (matchLitCI [' '])
    (mseq md2 (mopt (mseq (matchLitCI [':'])
      (mseq md2 (mopt (mseq (matchLitCI [':']) md2))))))

/-- One BSD date-time: `(Jan|...|Dec)  ?\d?\d( \d\d(:\d\d(:\d\d)?)?)?`. -/
def bsdCore : Line → List Line :=
  mseq monthM (mseq (matchLitCI [' '])
    (mseq (mopt (matchLitCI [' ']))
      (mseq (mopt mdigit) (mseq mdigit (mopt hmsM)))))

/-- The full BSD_FORMAT body (without the `^`/`$` anchors). -/
def bsdExpr : Line → List Line :=
  mseq bsdCore (mopt (mseq toSepM bsdCore))

/-- One sd-syslog date-time:
`\d\d\d\d-\d\d-\d\d(T\d\d(:\d\d(:\d\d)?)?)?`. -/
def isoCore : Line → List Line :=
  mseq md2 (mseq md2 (mseq (matchLitCI ['-'])
    (mseq md2 (mseq (matchLitCI ['-'])
      (mseq md2 (mopt (mseq (matchLitCI ['T'])
        (mseq md2 (mopt (mseq (matchLitCI [':'])
          (mseq md2 (mopt (mseq (matchLitCI [':']) md2)))))))))))))

/-- The full SD_SYSLOG_FORMAT body (it carries no anchors in the source). -/
def isoExpr : Line → List Line :=
  mseq isoCore (mopt (mseq toSepM isoCore))

/-- `$` of BSD_FORMAT: a match ends at the end of the string or right
before a single trailing newline. -/
def bsdEndOK (r : Line) : Bool := r == [] || r == ['\n']

/-- Does any remainder satisfy the `$` anchor? -/
def anyEndOK : List Line → Bool
  | [] => false
  | r :: rs => bsdEndOK r || anyEndOK rs

/-- `re.search(BSD_FORMAT, time, re.IGNORECASE)` is truthy: the pattern is
anchored with `^`, so only a match starting at position 0 counts, and it
must reach `$`. -/
def searchBSD (s : Line) : Bool := anyEndOK (bsdExpr s)

/-- `re.search(SD_SYSLOG_FORMAT, time, re.IGNORECASE)` is truthy: the
pattern is unanchored, so a match starting at any position suffices. -/
def searchSD : Line → Bool
  | [] => !(isoExpr []).isEmpty
  | c :: cs => !(isoExpr (c :: cs)).isEmpty || searchSD cs

/- ## Spec-side definition for claim C2 (refinement comparison)

Written from the spec's words: "the raw time expression must match exactly
one of the two accepted surface syntaxes (BSD-style or ISO-style,
case-insensitive)" — i.e. the whole expression is in the language of one of
the two token grammars. -/

/-- Does some remainder equal the empty string, i.e. does the matcher
accept the whole input? -/
def hasEmptyRem : List Line → Bool
  | [] => false
  | r :: rs => r.isEmpty || hasEmptyRem rs

/-- Spec-side (claim C2): the time expression, as a whole, is a valid
BSD-style or ISO-style expression. -/
def timeExprValidSpec (s : Line) : Bool :=
  hasEmptyRem (bsdExpr s) || hasEmptyRem (isoExpr s)

/- ## The packaged tool, src/src/logc_tool/logc.py -/

/-- The custom exceptions of `logc_tool/logc.py` (plus `valueError` for the
ValueError Python raises if `time.split(" to ")` yields more than the two
values unpacked into `min, max`). -/
inductive LogcError
  | bothOperators
  | invalidTime
  | moreThanOneFile
  | noOperator
  | nonExistentRange
  | valueError
deriving DecidableEq

/-- The dynamically-typed value `parse_by_time` hands to `parse_by_key`:
either a Python list of lines, or the bare sentinel string (Python returns
the *string* `"Pattern not found"`, not a list, on the no-match
single-timestamp path). -/
inductive PyVal
  | strList (l : List Line)
  | str (s : Line)
deriving DecidableEq

/-- The sentinel text `"Pattern not found"`. -/
def pnf : Line := ("Pattern not found").toList

/-- Python iteration over a `PyVal`: iterating a list yields its elements,
iterating a string yields its characters as one-character strings. -/
def pyIter : PyVal → List Line
  | .strList l => l
  | .str s => s.map (fun c => [c])

/-- Python `time.split(" to ")`: split on every non-overlapping occurrence
of the four-character separator, scanning left to right.  (Specialised to
this fixed separator so the recursion is structural.) -/
def splitOnTo : Line → List Line
  | ' ' :: 't' :: 'o' :: ' ' :: rest => [] :: splitOnTo rest
  | c :: rest =>
    match splitOnTo rest with
    | [] => [[c]]
    | p :: ps => (c :: p) :: ps
  | [] => [[]]

/-- The range scan of `parse_by_time` (lines 215-225 of the source): one
pass over the file carrying the mutable `inside_range` flag and the `tmp`
accumulator.  Each iteration mirrors the three `if` statements in order. -/
def rangeScan (mn mx : Line) (inside : Bool) : List Line → List Line
  | [] => []
  | log :: rest =>
    let inside1 := if inStr mn log then true else inside
    let tmp1 : List Line := if inStr mn log then [pyStrip log] else []
    let tmp2 := if inside1 then tmp1 ++ [pyStrip log] else tmp1
    let inside2 := if inStr mx log then false else inside1
    let tmp3 := if inStr mx log then tmp2 ++ [pyStrip log] else tmp2
    tmp3 ++ rangeScan mn mx inside2 rest

/-- The `range_counter` computed by the two bound-checking loops of
`parse_by_time` (each loop breaks at the first hit, so each contributes 1
exactly when some line contains its bound). -/
def boundsCounter (file : List Line) (mn mx : Line) : Nat :=
  (if file.any (fun log => inStr mn log) then 1 else 0) +
  (if file.any (fun log => inStr mx log) then 1 else 0)

/-- `parse_by_time(file, time, files)` of `logc_tool/logc.py`. -/
def parse_by_time (file : List Line) (time : Line) (files : List Line) :
    Except LogcError PyVal :=
  if !searchBSD time && !searchSD time then .error .invalidTime
  else if inStr toSepL time && files.length != 1 then .error .moreThanOneFile
  else if inStr toSepL time then
    match splitOnTo time with
    | [mn, mx] =>
      if boundsCounter file mn mx != 2 then .error .nonExistentRange
      else .ok (.strList (rangeScan mn mx false file))
    | _ => .error .valueError
  else
    if ((file.filter (fun log => inStr time log)).map pyStrip).isEmpty then
      .ok (.str pnf)
    else .ok (.strList ((file.filter (fun log => inStr time log)).map pyStrip))

/-- The exact-case operator token `"and"`. -/
def andTok : Line := ("and").toList

/-- The exact-case operator token `"or"`. -/
def orTok : Line := ("or").toList

/-- `remove_operator(keys)`: each keyword is rebound to its lower-cased
form; lower-cased `"and"`/`"or"` are dropped and every other (lower-cased)
keyword is kept. -/
def remove_operator : List Line → List Line
  | [] => []
  | key :: rest =>
    let k := lowerL key
    if k = andTok ∨ k = orTok then remove_operator rest
    else k :: remove_operator rest

/-- `and_filter(file, keys)`: keep (stripped) the lines containing every
keyword. -/
def and_filter : List Line → List Line → List Line
  | [], _ => []
  | log :: rest, keys =>
    (if keys.all (fun key => inStr key log) then [pyStrip log] else []) ++
      and_filter rest keys

/-- Inner loop of `or_filter`: one appended copy per matching keyword. -/
def orInner (log : Line) : List Line → List Line
  | [] => []
  | key :: ks => (if inStr key log then [pyStrip log] else []) ++ orInner log ks

/-- `or_filter(file, keys)`: nested loops, lines outside, keywords inside. -/
def or_filter : List Line → List Line → List Line
  | [], _ => []
  | log :: rest, keys => orInner log keys ++ or_filter rest keys

/-- The trailing `if len(tmp) == 0: tmp.append("Pattern not found")` of
`parse_by_key`. -/
def sentinelize (l : List Line) : List Line :=
  if l.isEmpty then [pnf] else l

/-- The single-keyword loop of `parse_by_key` (`keys[0]`). -/
def singleKeyFilter (logs : List Line) (key : Line) : List Line :=
  (logs.filter (fun log => inStr key log)).map pyStrip

/-- `parse_by_key(file, keys)` of `logc_tool/logc.py`.  `file` may be a
list of lines or the bare sentinel string (see `pyIter`). -/
def parse_by_key (file : PyVal) (keys : List Line) :
    Except LogcError (List Line) :=
  if 1 < keys.length then
    if andTok ∈ keys ∧ orTok ∈ keys then .error .bothOperators
    else if andTok ∈ keys then
      .ok (sentinelize (and_filter (pyIter file) (remove_operator keys)))
    else if orTok ∈ keys then
      .ok (sentinelize (or_filter (pyIter file) (remove_operator keys)))
    else .error .noOperator
  else if keys.length = 1 then
    .ok (sentinelize (singleKeyFilter (pyIter file) (keys.headD [])))
  else .ok (sentinelize [])

/-- Inner loop of `restore_logs`: for one folded matched line, every
original line whose lower-cased form contains it is appended (the loop has
no break). -/
def restoreInner (low : Line) : List Line → List Line
  | [] => []
  | log :: rest =>
    (if inStr low (lowerL log) then [pyStrip log] else []) ++ restoreInner low rest

/-- `restore_logs(file, real_file)` of `logc_tool/logc.py`. -/
def restore_logs : List Line → List Line → List Line
  | [], _ => []
  | low :: rest, real_file => restoreInner low real_file ++ restore_logs rest real_file

/-- Python truthiness of `args.time` (None or the empty string are falsy). -/
def truthyStr : Option Line → Bool
  | none => false
  | some s => !s.isEmpty

/-- Python truthiness of `args.key` (None or the empty list are falsy). -/
def truthyList : Option (List Line) → Bool
  | none => false
  | some l => !l.isEmpty

/-- The per-file filter composition of `main` (lines 50-56 of
`logc_tool/logc.py`, without the `-i` case folding): time first, then key,
the time result feeding the key filter. -/
def applyFilters (file : List Line) (time? : Option Line)
    (key? : Option (List Line)) (files : List Line) : Except LogcError PyVal :=
  if truthyStr time? && truthyList key? then
    match parse_by_time file (time?.getD []) files with
    | .error e => .error e
    | .ok v =>
      match parse_by_key v (key?.getD []) with
      | .error e => .error e
      | .ok r => .ok (.strList r)
  else if truthyStr time? then
    parse_by_time file (time?.getD []) files
  else if truthyList key? then
    match parse_by_key (.strList file) (key?.getD []) with
    | .error e => .error e
    | .ok r => .ok (.strList r)
  else .ok (.strList file)

/- ## Spec-side definitions used to state claims C1, C7 and C8 -/

/-- Spec-side (claim C1): one step of the range scan exactly as the claim
describes it — the lower-bound test (include, set the flag), then the
inside-flag test (include again), then the upper-bound test (include,
clear the flag). -/
def scanStepSpec (mn mx : Line) (inside : Bool) (log : Line) :
    List Line × Bool :=
  let insideAfterMin := if inStr mn log then true else inside
  let out :=
    (if inStr mn log then [pyStrip log] else []) ++
    (if insideAfterMin then [pyStrip log] else []) ++
    (if inStr mx log then [pyStrip log] else [])
  (out, if inStr mx log then false else insideAfterMin)

/-- Spec-side (claim C1): the whole-file scan as a fold of `scanStepSpec`
over every line in order — the scan never stops early. -/
def scanSpec (mn mx : Line) : Bool → List Line → List Line
  | _, [] => []
  | inside, log :: rest =>
    (scanStepSpec mn mx inside log).1 ++
      scanSpec mn mx (scanStepSpec mn mx inside log).2 rest

/-- Spec-side (claim C8): restoration that keeps only the *first* original
line whose lower-cased form contains the folded matched line, as the claim
states. -/
def restoreFirstSpec (file real_file : List Line) : List Line :=
  file.flatMap (fun low =>
    match real_file.find? (fun log => inStr low (lowerL log)) with
    | some log => [pyStrip log]
    | none => [])

/-- Is a result value a non-empty sequence (or non-empty string)? -/
def isNonEmptyVal : PyVal → Bool
  | .strList l => !l.isEmpty
  | .str s => !s.isEmpty

/- ## The script variant, src/logc.py -/

/-- The value of `args.key` in the script variant: `-k` stores a single
string, `-ka`/`-ko` store a list of strings. -/
inductive SKey
  | s (v : Line)
  | l (v : List Line)
deriving DecidableEq

/-- The arguments `filter_logs` reads from the argparse namespace. -/
structure ScriptArgs where
  time : Option Line
  key : Option SKey
  key_type : Line
  ignore_case : Bool
deriving DecidableEq

/-- Errors of the script variant: `typeError` models Python's TypeError
for a call that omits a required positional argument, `valueError` the
ValueError raised by `check_bounds`, `unboundLocal` the UnboundLocalError
of `return tmp` when neither filter was supplied. -/
inductive ScriptError
  | typeError
  | valueError
  | unboundLocal
deriving DecidableEq

/-- Python truthiness of `args.key` in the script variant. -/
def truthySKey : Option SKey → Bool
  | none => false
  | some (.s v) => !v.isEmpty
  | some (.l v) => !v.isEmpty

/-- Python iteration over the `args.key` value: iterating a string yields
its characters as one-character strings. -/
def skeyIter : SKey → List Line
  | .s v => v.map (fun c => [c])
  | .l v => v

/-- `check_bounds(logs, ranges)` of `src/logc.py`: two scans with break,
then `raise ValueError` unless both bounds were seen. -/
def check_bounds (logs : List Line) (ranges : List Line) :
    Except ScriptError Unit :=
  let range_counter :=
    (if logs.any (fun log => inStr (ranges.getD 0 []) log) then 1 else 0) +
    (if logs.any (fun log => inStr (ranges.getD 1 []) log) then 1 else 0)
  if range_counter != 2 then .error .valueError else .ok ()

/-- `filter_by_parameter(logs, arg_parameter, args)` of `src/logc.py`
(the three-argument body; call sites that omit `args` never reach it,
Python raises TypeError at the call). -/
def filter_by_parameter (logs : List Line) (arg_parameter : Line)
    (args : ScriptArgs) : Except ScriptError (List Line) :=
  if inStr toSepL arg_parameter && args.time == some arg_parameter then
    let ranges := splitOnTo arg_parameter
    match check_bounds logs ranges with
    | .error e => .error e
    | .ok _ =>
      .ok (rangeScan (ranges.getD 0 []) (ranges.getD 1 []) false logs)
  else
    let tmp :=
      if args.ignore_case && args.key == some (.s arg_parameter) then
        (logs.filter (fun log => inStr (lowerL arg_parameter) (lowerL log))).map pyStrip
      else
        (logs.filter (fun log => inStr arg_parameter log)).map pyStrip
    .ok (if tmp.isEmpty then [pnf] else tmp)

/-- `filter_by_multiple_keys_AND(logs, keys, args)` of `src/logc.py`. -/
def filter_by_multiple_keys_AND (logs keys : List Line) (args : ScriptArgs) :
    List Line :=
  if args.ignore_case then
    (logs.filter (fun log => keys.all (fun key => inStr (lowerL key) (lowerL log)))).map pyStrip
  else
    (logs.filter (fun log => keys.all (fun key => inStr key log))).map pyStrip

/-- `filter_by_multiple_keys_OR(logs, keys, args)` of `src/logc.py`:
nested loops, one appended copy per matching keyword. -/
def filter_by_multiple_keys_OR (logs keys : List Line) (args : ScriptArgs) :
    List Line :=
  if args.ignore_case then
    logs.flatMap (fun log =>
      keys.flatMap (fun key =>
        if inStr (lowerL key) (lowerL log) then [pyStrip log] else []))
  else
    logs.flatMap (fun log =>
      keys.flatMap (fun key =>
        if inStr key log then [pyStrip log] else []))

/-- `filter_logs(logs, args)` of `src/logc.py`.  In the combined
time-and-key branch the source calls `filter_by_parameter(logs, args.time)`
with only two of the three required positional arguments, so Python raises
TypeError before any filtering happens; likewise for the single-key-only
call `filter_by_parameter(logs, args.key)`. -/
def filter_logs (logs : List Line) (args : ScriptArgs) :
    Except ScriptError (List Line) :=
  if truthyStr args.time && truthySKey args.key then
    .error .typeError
  else if truthyStr args.time then
    match filter_by_parameter logs (args.time.getD []) args with
    | .error e => .error e
    | .ok tmp => .ok (if tmp.isEmpty then [pnf] else tmp)
  else if truthySKey args.key then
    if args.key_type = ("ka").toList then
      .ok (sentinelize
        (filter_by_multiple_keys_AND logs (skeyIter (args.key.getD (.l []))) args))
    else if args.key_type = ("ko").toList then
      .ok (sentinelize
        (filter_by_multiple_keys_OR logs (skeyIter (args.key.getD (.l []))) args))
    else .error .typeError
  else .error .unboundLocal

/- ## Helper lemmas -/

theorem sentinelize_ne_nil (l : List Line) : sentinelize l ≠ [] := by
  unfold sentinelize
  split
  · simp
  · simp_all [List.isEmpty_iff]

theorem rangeScan_eq_scanSpec (mn mx : Line) :
    ∀ (file : List Line) (inside : Bool),
      rangeScan mn mx inside file = scanSpec mn mx inside file := by
  intro file
  induction file with
  | nil => intro inside; rfl
  | cons log rest ih =>
    intro inside
    simp only [rangeScan, scanSpec, scanStepSpec]
    by_cases hmn : inStr mn log = true <;>
      by_cases hmx : inStr mx log = true <;>
        by_cases hin : inside = true <;>
          simp [hmn, hmx, hin, ih]

theorem head_mem_rangeScan_true (mn mx : Line) (log : Line) (rest : List Line) :
    pyStrip log ∈ rangeScan mn mx true (log :: rest) := by
  simp only [rangeScan]
  by_cases hmn : inStr mn log = true <;>
    by_cases hmx : inStr mx log = true <;>
      simp [hmn, hmx]

theorem mem_rangeScan_of_bound (mn mx : Line) :
    ∀ (file : List Line) (inside : Bool) (log : Line),
      log ∈ file → (inStr mn log = true ∨ inStr mx log = true) →
      pyStrip log ∈ rangeScan mn mx inside file := by
  intro file
  induction file with
  | nil => intro inside log hmem; cases hmem
  | cons hd rest ih =>
    intro inside log hmem hbound
    rcases List.mem_cons.mp hmem with heq | htail
    · subst heq
      simp only [rangeScan]
      rcases hbound with hmn | hmx
      · by_cases hmx : inStr mx log = true <;>
          by_cases hin : inside = true <;> simp [hmn, hmx, hin]
      · by_cases hmn : inStr mn log = true <;>
          by_cases hin : inside = true <;> simp [hmn, hmx, hin]
    · simp only [rangeScan]
      refine List.mem_append_right _ (ih _ log htail hbound)

theorem rangeScan_ne_nil (mn mx : Line) (file : List Line) (inside : Bool)
    (h : file.any (fun log => inStr mn log) = true) :
    rangeScan mn mx inside file ≠ [] := by
  rcases List.any_eq_true.mp h with ⟨log, hmem, hmn⟩
  have := mem_rangeScan_of_bound mn mx file inside log hmem (Or.inl hmn)
  intro hnil
  rw [hnil] at this
  cases this

theorem orInner_eq_filterMap (log : Line) :
    ∀ keys : List Line,
      orInner log keys =
        (keys.filter (fun key => inStr key log)).map (fun _ => pyStrip log) := by
  intro keys
  induction keys with
  | nil => rfl
  | cons key ks ih =>
    simp only [orInner]
    by_cases h : inStr key log = true <;> simp [h, ih, List.filter_cons]

theorem or_filter_eq_flatMap :
    ∀ (file keys : List Line),
      or_filter file keys =
        file.flatMap (fun log =>
          (keys.filter (fun key => inStr key log)).map (fun _ => pyStrip log)) := by
  intro file keys
  induction file with
  | nil => rfl
  | cons log rest ih =>
    simp only [or_filter, List.flatMap_cons, ih, orInner_eq_filterMap]

theorem restoreInner_eq_filterMap (low : Line) :
    ∀ real_file : List Line,
      restoreInner low real_file =
        (real_file.filter (fun log => inStr low (lowerL log))).map pyStrip := by
  intro real_file
  induction real_file with
  | nil => rfl
  | cons log rest ih =>
    simp only [restoreInner]
    by_cases h : inStr low (lowerL log) = true <;>
      simp [h, ih, List.filter_cons]

theorem restore_logs_eq_flatMap :
    ∀ (file real_file : List Line),
      restore_logs file real_file =
        file.flatMap (fun low =>
          (real_file.filter (fun log => inStr low (lowerL log))).map pyStrip) := by
  intro file real_file
  induction file with
  | nil => rfl
  | cons low rest ih =>
    simp only [restore_logs, List.flatMap_cons, ih, restoreInner_eq_filterMap]

theorem remove_operator_eq_filterMap :
    ∀ keys : List Line,
      remove_operator keys =
        (keys.map lowerL).filter
          (fun k => !(k == andTok || k == orTok)) := by
  intro keys
  induction keys with
  | nil => rfl
  | cons key ks ih =>
    simp only [remove_operator, List.map_cons, List.filter_cons]
    by_cases h : lowerL key = andTok ∨ lowerL key = orTok
    · rcases h with h1 | h1 <;> simp [h1, ih]
    · push_neg at h
      simp [h.1, h.2, ih]

theorem hasEmptyRem_imp_anyEndOK :
    ∀ l : List Line, hasEmptyRem l = true → anyEndOK l = true := by
  intro l
  induction l with
  | nil => intro h; cases h
  | cons r rs ih =>
    intro h
    simp only [hasEmptyRem, Bool.or_eq_true] at h
    rcases h with h | h
    · simp only [anyEndOK, bsdEndOK, Bool.or_eq_true]
      rw [List.isEmpty_iff] at h
      simp [h]
    · simp [anyEndOK, ih h]

theorem hasEmptyRem_imp_not_isEmpty :
    ∀ l : List Line, hasEmptyRem l = true → l.isEmpty = false := by
  intro l
  cases l with
  | nil => intro h; cases h
  | cons r rs => intro _; rfl

theorem searchSD_of_full (s : Line) (h : hasEmptyRem (isoExpr s) = true) :
    searchSD s = true := by
  cases s with
  | nil =>
    simp only [searchSD]
    simp [hasEmptyRem_imp_not_isEmpty _ h]
  | cons c cs =>
    simp only [searchSD, Bool.or_eq_true]
    left
    simp [hasEmptyRem_imp_not_isEmpty _ h]

theorem parse_by_time_not_invalid (file : List Line) (time : Line)
    (files : List Line)
    (h : searchBSD time = true ∨ searchSD time = true) :
    parse_by_time file time files ≠ .error .invalidTime := by
  unfold parse_by_time
  have hcond : (!searchBSD time && !searchSD time) = false := by
    rcases h with h | h <;> simp [h]
  rw [hcond]
  simp only [Bool.false_eq_true, if_false]
  repeat' split
  all_goals intro hcontra; cases hcontra

theorem parse_by_time_invalid_iff (file : List Line) (time : Line)
    (files : List Line) :
    parse_by_time file time files = .error .invalidTime ↔
      (searchBSD time = false ∧ searchSD time = false) := by
  constructor
  · intro h
    by_cases hb : searchBSD time = true
    · exact absurd h (parse_by_time_not_invalid file time files (Or.inl hb))
    · by_cases hs : searchSD time = true
      · exact absurd h (parse_by_time_not_invalid file time files (Or.inr hs))
      · exact ⟨Bool.eq_false_iff.mpr hb, Bool.eq_false_iff.mpr hs⟩
  · intro ⟨hb, hs⟩
    unfold parse_by_time
    simp [hb, hs]

theorem parse_by_key_ok_ne_nil (v : PyVal) (keys : List Line)
    (r : List Line) (h : parse_by_key v keys = .ok r) : r ≠ [] := by
  unfold parse_by_key at h
  repeat' split at h
  all_goals cases h
  all_goals apply sentinelize_ne_nil

theorem not_isEmpty_of_ne_nil {α : Type} {l : List α} (h : l ≠ []) :
    l.isEmpty = false := by
  cases l with
  | nil => exact absurd rfl h
  | cons a t => rfl

theorem boundsCounter_eq_two (file : List Line) (mn mx : Line)
    (h : (boundsCounter file mn mx != 2) = false) :
    file.any (fun log => inStr mn log) = true ∧
    file.any (fun log => inStr mx log) = true := by
  unfold boundsCounter at h
  by_cases h1 : file.any (fun log => inStr mn log) = true <;>
    by_cases h2 : file.any (fun log => inStr mx log) = true <;>
      simp [h1, h2] at h ⊢

theorem parse_by_time_ok_nonempty (file : List Line) (time : Line)
    (files : List Line) (v : PyVal)
    (h : parse_by_time file time files = .ok v) : isNonEmptyVal v = true := by
  unfold parse_by_time at h
  split at h
  · cases h
  · split at h
    · cases h
    · split at h
      · split at h
        · split at h
          · cases h
          · rename_i x mnv mxv heq hcnt
            injection h with h2
            subst h2
            have hb := boundsCounter_eq_two file mnv mxv
              (Bool.eq_false_iff.mpr hcnt)
            have hne := rangeScan_ne_nil mnv mxv file false hb.1
            simp [isNonEmptyVal, not_isEmpty_of_ne_nil hne]
        · cases h
      · split at h
        · injection h with h2
          subst h2
          decide
        · rename_i hne
          injection h with h2
          subst h2
          simp only [isNonEmptyVal]
          simp_all

theorem applyFilters_ok_nonempty (file : List Line) (time? : Option Line)
    (key? : Option (List Line)) (files : List Line) (v : PyVal)
    (htruthy : (truthyStr time? || truthyList key?) = true)
    (h : applyFilters file time? key? files = .ok v) :
    isNonEmptyVal v = true := by
  unfold applyFilters at h
  split at h
  · split at h
    · cases h
    · split at h
      · cases h
      · rename_i r hpk
        injection h with h2
        subst h2
        have hr := parse_by_key_ok_ne_nil _ _ _ hpk
        simp [isNonEmptyVal, not_isEmpty_of_ne_nil hr]
  · split at h
    · exact parse_by_time_ok_nonempty _ _ _ _ h
    · split at h
      · split at h
        · cases h
        · rename_i r hpk
          injection h with h2
          subst h2
          have hr := parse_by_key_ok_ne_nil _ _ _ hpk
          simp [isNonEmptyVal, not_isEmpty_of_ne_nil hr]
      · rename_i hc1 hc2 hc3
        exfalso
        have htruthy2 : truthyStr time? = true ∨ truthyList key? = true := by
          simpa using htruthy
        rcases htruthy2 with ht | hk
        · exact hc2 ht
        · exact hc3 hk

theorem inStr_long_singleton (k : Line) (c : Char) (h : 2 ≤ k.length) :
    inStr k [c] = false := by
  match k with
  | [] => simp at h
  | [a] => simp at h
  | a :: b :: t => simp [inStr, isPrefixL]

theorem count_map_const {α β : Type} [BEq α] [LawfulBEq α]
    (l : List β) (a : α) :
    ((l.map (fun _ => a)).count a) = l.length := by
  induction l with
  | nil => rfl
  | cons x t ih => simp [List.count_cons, ih]

/- ## Claim theorems -/

/-- Claim C1: in range mode, applyTime scans every line in order with an
"inside" flag initially false; a line containing the lower-bound token sets
the flag true and is included, any line is included while the flag is true
(so a lower-bound line is appended twice in that iteration), and a line
containing the upper-bound token sets the flag false and is included.  The
scan never stops early: a lower-bound line is included wherever it occurs,
and when it reoccurs (not itself closing the range) inclusion reopens, so
the following line appears in the result as well. -/
theorem claim_C1_range_scan (mn mx : Line) (file : List Line) :
    (rangeScan mn mx false file = scanSpec mn mx false file) ∧
    (∀ (pre suf : List Line) (log : Line) (inside : Bool),
        inStr mn log = true →
        pyStrip log ∈ rangeScan mn mx inside (pre ++ log :: suf)) ∧
    (∀ (pre suf : List Line) (log log2 : Line) (inside : Bool),
        inStr mn log = true → inStr mx log = false →
        pyStrip log2 ∈ rangeScan mn mx inside (pre ++ log :: log2 :: suf)) ∧
    (∀ (time : Line) (files : List Line),
        (searchBSD time || searchSD time) = true →
        inStr toSepL time = true →
        files.length = 1 →
        splitOnTo time = [mn, mx] →
        file.any (fun log => inStr mn log) = true →
        file.any (fun log => inStr mx log) = true →
        parse_by_time file time files =
          .ok (.strList (rangeScan mn mx false file))) := by
  refine ⟨rangeScan_eq_scanSpec mn mx file false, ?_, ?_, ?_⟩
  · intro pre suf log inside hmn
    exact mem_rangeScan_of_bound mn mx _ inside log (by simp) (Or.inl hmn)
  · intro pre
    induction pre with
    | nil =>
      intro suf log log2 inside hmn hmx
      simp only [List.nil_append, rangeScan, hmn, hmx]
      simp only [if_true, Bool.false_eq_true, if_false]
      refine List.mem_append_right _ (head_mem_rangeScan_true mn mx log2 suf)
    | cons p ps ih =>
      intro suf log log2 inside hmn hmx
      simp only [List.cons_append, rangeScan]
      exact List.mem_append_right _ (ih suf log log2 _ hmn hmx)
  · intro time files hsearch hsep hlen hsplit hmn hmx
    have h1 : (!searchBSD time && !searchSD time) = false := by
      have hsearch2 : searchBSD time = true ∨ searchSD time = true := by
        simpa using hsearch
      rcases hsearch2 with h | h <;> simp [h]
    unfold parse_by_time
    rw [hsplit]
    simp [h1, hsep, hlen, boundsCounter, hmn, hmx]

/-- Witness for claim C1 at a concrete file: the lower-bound line
`"Oct 6 a"` reoccurs after the upper-bound line `"Oct 7 z"`, reopening
inclusion so the following `"tail"` line also appears, and
`parse_by_time` in range mode returns exactly the scan's output. -/
theorem claim_C1_range_scan_witness :
    pyStrip (("Oct 6 a").toList) ∈
      rangeScan (("Oct 6").toList) (("Oct 7").toList) false
        ([("Oct 7 z").toList] ++ ("Oct 6 a").toList :: [("tail").toList]) ∧
    pyStrip (("tail").toList) ∈
      rangeScan (("Oct 6").toList) (("Oct 7").toList) false
        ([("Oct 7 z").toList] ++
          ("Oct 6 a").toList :: ("tail").toList :: []) ∧
    parse_by_time
        [("Oct 7 z").toList, ("Oct 6 a").toList, ("tail").toList]
        (("Oct 6 to Oct 7").toList) [['f']] =
      .ok (.strList
        (rangeScan (("Oct 6").toList) (("Oct 7").toList) false
          [("Oct 7 z").toList, ("Oct 6 a").toList, ("tail").toList])) :=
  ⟨(claim_C1_range_scan (("Oct 6").toList) (("Oct 7").toList) []).2.1
      [("Oct 7 z").toList] [("tail").toList] (("Oct 6 a").toList) false
      (by decide),
   (claim_C1_range_scan (("Oct 6").toList) (("Oct 7").toList) []).2.2.1
      [("Oct 7 z").toList] [] (("Oct 6 a").toList) (("tail").toList) false
      (by decide) (by decide),
   (claim_C1_range_scan (("Oct 6").toList) (("Oct 7").toList)
      [("Oct 7 z").toList, ("Oct 6 a").toList, ("tail").toList]).2.2.2
      (("Oct 6 to Oct 7").toList) [['f']]
      (by decide) (by decide) (by decide) (by decide) (by decide) (by decide)⟩

/-- Counterexample to claim C2: the string `"x2020-01-01"` matches neither
surface syntax as a whole expression (`timeExprValidSpec` rejects it), yet
`parse_by_time` accepts it, because the sd-syslog pattern is unanchored
and `re.search` finds the ISO date inside the string. -/
theorem claim_C2_counterexample :
    parse_by_time [] (("x2020-01-01").toList) [['f']] ≠
      .error .invalidTime ∧
    timeExprValidSpec (("x2020-01-01").toList) = false := by
  have heval : parse_by_time [] (("x2020-01-01").toList) [['f']] =
      .ok (.str pnf) := by rfl
  constructor
  · rw [heval]
    intro h
    cases h
  · decide

/-- Claim C2 (amended): applyTime accepts a time expression iff the whole
expression matches the BSD syntax (anchored, case-insensitive, allowing a
trailing newline) or the ISO pattern occurs as a substring anywhere in it
(the ISO check is an unanchored search); in particular every expression
that fully matches one of the two surface syntaxes is accepted, but
strings that merely contain an ISO-shaped substring are accepted as well
instead of failing with InvalidTimeFormat. -/
theorem claim_C2_time_validation (time : Line) (file files : List Line) :
    (timeExprValidSpec time = true →
      parse_by_time file time files ≠ .error .invalidTime) ∧
    (parse_by_time file time files = .error .invalidTime ↔
      (searchBSD time = false ∧ searchSD time = false)) := by
  constructor
  · intro hvalid
    have hv : hasEmptyRem (bsdExpr time) = true ∨
        hasEmptyRem (isoExpr time) = true := by
      simpa [timeExprValidSpec] using hvalid
    apply parse_by_time_not_invalid
    rcases hv with h | h
    · exact Or.inl (hasEmptyRem_imp_anyEndOK _ h)
    · exact Or.inr (searchSD_of_full _ h)
  · exact parse_by_time_invalid_iff file time files

/-- Witness for (amended) claim C2: the valid BSD expression `"Oct  6"` is
accepted, and the garbage string `"nonsense"` matches neither search, so
it is rejected with the invalid-time error. -/
theorem claim_C2_time_validation_witness :
    parse_by_time [] (("Oct  6").toList) [['f']] ≠ .error .invalidTime ∧
    parse_by_time [] (("nonsense").toList) [['f']] =
      .error .invalidTime :=
  ⟨(claim_C2_time_validation (("Oct  6").toList) [] [['f']]).1 (by decide),
   (claim_C2_time_validation (("nonsense").toList) [] [['f']]).2.mpr
     ⟨by decide, by decide⟩⟩

/-- Claim C3: in range mode (a syntactically valid range expression over a
single file), if either bound token occurs in no line the call fails with
the non-existent-range error — a hard error, never an empty result — and
if both bound tokens occur in some line, the call succeeds and the result
contains (stripped) every line containing either bound, in particular the
bound lines, and is non-empty. -/
theorem claim_C3_range_bounds (file : List Line) (time : Line)
    (files : List Line) (mn mx : Line)
    (hsearch : (searchBSD time || searchSD time) = true)
    (hsep : inStr toSepL time = true)
    (hlen : files.length = 1)
    (hsplit : splitOnTo time = [mn, mx]) :
    ((file.any (fun log => inStr mn log) = false ∨
        file.any (fun log => inStr mx log) = false) →
      parse_by_time file time files = .error .nonExistentRange) ∧
    (file.any (fun log => inStr mn log) = true →
      file.any (fun log => inStr mx log) = true →
      ∃ l, parse_by_time file time files = .ok (.strList l) ∧ l ≠ [] ∧
        ∀ log ∈ file, (inStr mn log = true ∨ inStr mx log = true) →
          pyStrip log ∈ l) := by
  have h1 : (!searchBSD time && !searchSD time) = false := by
    have hsearch2 : searchBSD time = true ∨ searchSD time = true := by
      simpa using hsearch
    rcases hsearch2 with h | h <;> simp [h]
  constructor
  · intro habsent
    unfold parse_by_time
    rw [hsplit]
    have hcnt : (boundsCounter file mn mx != 2) = true := by
      unfold boundsCounter
      rcases habsent with h | h
      · rw [h]
        cases hx : file.any (fun log => inStr mx log) <;> decide
      · rw [h]
        cases hx : file.any (fun log => inStr mn log) <;> decide
    simp [h1, hsep, hlen, hcnt]
  · intro hmn hmx
    refine ⟨rangeScan mn mx false file, ?_, ?_, ?_⟩
    · unfold parse_by_time
      rw [hsplit]
      simp [h1, hsep, hlen, boundsCounter, hmn, hmx]
    · exact rangeScan_ne_nil mn mx file false hmn
    · intro log hmem hbound
      exact mem_rangeScan_of_bound mn mx file false log hmem hbound

/-- Witness for claim C3: with the range `"Nov 1 to Nov 2"`, a file
missing the upper bound errors out, and a file containing both bounds
yields a non-empty result containing the stripped bound lines. -/
theorem claim_C3_range_bounds_witness :
    parse_by_time [("Nov 1 low").toList] (("Nov 1 to Nov 2").toList)
        [['g']] = .error .nonExistentRange ∧
    ∃ l,
      parse_by_time [("Nov 1 low").toList, ("Nov 2 up").toList]
          (("Nov 1 to Nov 2").toList) [['g']] = .ok (.strList l) ∧
      l ≠ [] ∧
      ∀ log ∈ [("Nov 1 low").toList, ("Nov 2 up").toList],
        (inStr (("Nov 1").toList) log = true ∨
         inStr (("Nov 2").toList) log = true) →
        pyStrip log ∈ l :=
  ⟨(claim_C3_range_bounds [("Nov 1 low").toList] (("Nov 1 to Nov 2").toList)
      [['g']] (("Nov 1").toList) (("Nov 2").toList)
      (by decide) (by decide) (by decide) (by decide)).1
    (Or.inr (by decide)),
   (claim_C3_range_bounds [("Nov 1 low").toList, ("Nov 2 up").toList]
      (("Nov 1 to Nov 2").toList) [['g']]
      (("Nov 1").toList) (("Nov 2").toList)
      (by decide) (by decide) (by decide) (by decide)).2
    (by decide) (by decide)⟩

theorem ne_nil_of_not_isEmpty {α : Type} {l : List α}
    (h : ¬ l.isEmpty = true) : l ≠ [] := by
  cases l with
  | nil => exact absurd rfl h
  | cons a t => simp

/-- Claim C4: a filter application (time or key, alone or composed) never
produces an empty sequence: whenever the composed pipeline of the tool
variant succeeds its value is non-empty, a zero-match single-key filter
returns exactly the sentinel list, the sentinel is distinct from the empty
sequence, and the script variant's `filter_logs` never returns an empty
list either. -/
theorem claim_C4_no_empty_result :
    (∀ (file : List Line) (time? : Option Line) (key? : Option (List Line))
        (files : List Line) (v : PyVal),
        (truthyStr time? || truthyList key?) = true →
        applyFilters file time? key? files = .ok v →
        isNonEmptyVal v = true) ∧
    (∀ (file : List Line) (k : Line),
        file.all (fun log => !inStr k log) = true →
        parse_by_key (.strList file) [k] = .ok [pnf]) ∧
    ((pnf ≠ ([] : Line)) ∧ ∀ l : List Line, sentinelize l ≠ []) ∧
    (∀ (logs : List Line) (args : ScriptArgs) (r : List Line),
        filter_logs logs args = .ok r → r ≠ []) := by
  refine ⟨?_, ?_, ⟨by decide, sentinelize_ne_nil⟩, ?_⟩
  · intro file time? key? files v h1 h2
    exact applyFilters_ok_nonempty file time? key? files v h1 h2
  · intro file k hall
    have hfilter : file.filter (fun log => inStr k log) = [] := by
      rw [List.filter_eq_nil_iff]
      intro a ha
      have := List.all_eq_true.mp hall a ha
      simp_all
    unfold parse_by_key
    simp [singleKeyFilter, pyIter, hfilter, sentinelize]
  · intro logs args r h
    unfold filter_logs at h
    repeat' split at h
    all_goals cases h
    all_goals try exact sentinelize_ne_nil _
    all_goals try simp
    all_goals rename_i htmp
    all_goals exact ne_nil_of_not_isEmpty htmp

/-- Witness for claim C4: a concrete key-only run yields a non-empty
value, a zero-match single-key filter yields exactly the sentinel list,
and a concrete AND run of the script variant yields the (non-empty)
sentinel list. -/
theorem claim_C4_no_empty_result_witness :
    isNonEmptyVal (PyVal.strList [pnf]) = true ∧
    parse_by_key (.strList [("abc").toList]) [['q']] = .ok [pnf] ∧
    ([pnf] : List Line) ≠ [] :=
  ⟨claim_C4_no_empty_result.1 [] none (some [['q']]) [] (.strList [pnf])
      (by decide) (by rfl),
   claim_C4_no_empty_result.2.1 [("abc").toList] ['q'] (by decide),
   claim_C4_no_empty_result.2.2.2 []
      ⟨none, some (.l [['q'], ['r']]), ("ka").toList, false⟩ [pnf] (by rfl)⟩

/-- Claim C5: a KeySpec with more than one keyword and no operator token
fails with the no-operator error, and one carrying both the AND and the OR
token fails with the both-operators error; in both cases the call returns
the error, so no matching is performed. -/
theorem claim_C5_operator_errors (file : PyVal) (keys : List Line)
    (hlen : 1 < keys.length) :
    (andTok ∈ keys → orTok ∈ keys →
      parse_by_key file keys = .error .bothOperators) ∧
    (andTok ∉ keys → orTok ∉ keys →
      parse_by_key file keys = .error .noOperator) := by
  constructor
  · intro ha ho
    unfold parse_by_key
    simp [hlen, ha, ho]
  · intro ha ho
    unfold parse_by_key
    simp [hlen, ha, ho]

/-- Witness for claim C5 at concrete keyword lists. -/
theorem claim_C5_operator_errors_witness :
    parse_by_key (.strList []) [['x'], andTok, orTok] =
      .error .bothOperators ∧
    parse_by_key (.strList []) [['x'], ['y']] = .error .noOperator :=
  ⟨(claim_C5_operator_errors (.strList []) [['x'], andTok, orTok]
      (by decide)).1 (by decide) (by decide),
   (claim_C5_operator_errors (.strList []) [['x'], ['y']]
      (by decide)).2 (by decide) (by decide)⟩

/-- Counterexample to claim C6: operator recognition is case-sensitive,
not case-insensitive.  With keywords `["x", "And", "y"]` the claim says
`"And"` selects AND mode (and is stripped), but the code raises the
no-operator error, because `"and" in keys` is an exact-case list
membership test. -/
theorem claim_C6_counterexample :
    parse_by_key (.strList [("xAy").toList])
        [['x'], ("And").toList, ['y']] = .error .noOperator ∧
    parse_by_key (.strList [("xAy").toList])
        [['x'], ("And").toList, ['y']] ≠
      .ok (sentinelize (and_filter [("xAy").toList]
        (remove_operator [['x'], ("And").toList, ['y']]))) := by
  have heval : parse_by_key (.strList [("xAy").toList])
      [['x'], ("And").toList, ['y']] = .error .noOperator := by rfl
  refine ⟨heval, ?_⟩
  rw [heval]
  intro h
  cases h

/-- Claim C6 (amended): operator-mode selection is case-sensitive — AND or
OR mode is entered only when the exact lower-case token `"and"` or `"or"`
is an element of the keyword list — while the subsequent stripping in
`remove_operator` is case-insensitive and additionally lower-cases every
surviving keyword before matching: the keyword list used for matching is
the lower-cased original list with any case variant of `"and"`/`"or"`
removed. -/
theorem claim_C6_operator_stripping (keys : List Line) (v : PyVal) :
    (remove_operator keys =
      (keys.map lowerL).filter (fun k => !(k == andTok || k == orTok))) ∧
    (1 < keys.length → andTok ∈ keys → orTok ∉ keys →
      parse_by_key v keys =
        .ok (sentinelize (and_filter (pyIter v) (remove_operator keys)))) ∧
    (1 < keys.length → andTok ∉ keys → orTok ∈ keys →
      parse_by_key v keys =
        .ok (sentinelize (or_filter (pyIter v) (remove_operator keys)))) := by
  refine ⟨remove_operator_eq_filterMap keys, ?_, ?_⟩
  · intro hlen ha ho
    unfold parse_by_key
    simp [hlen, ha, ho]
  · intro hlen ha ho
    unfold parse_by_key
    simp [hlen, ha, ho]

/-- Witness for (amended) claim C6: `["FPC", "AND", "Or"]` strips both
operator spellings and lower-cases the keyword, and the exact token
`"and"` does select AND mode. -/
theorem claim_C6_operator_stripping_witness :
    remove_operator [("FPC").toList, ("AND").toList, ("Or").toList] =
      (([("FPC").toList, ("AND").toList, ("Or").toList].map lowerL).filter
        (fun k => !(k == andTok || k == orTok))) ∧
    parse_by_key (.strList [("fpc up").toList]) [("fpc").toList, andTok] =
      .ok (sentinelize (and_filter [("fpc up").toList]
        (remove_operator [("fpc").toList, andTok]))) :=
  ⟨(claim_C6_operator_stripping
      [("FPC").toList, ("AND").toList, ("Or").toList] (.strList [])).1,
   (claim_C6_operator_stripping [("fpc").toList, andTok]
      (.strList [("fpc up").toList])).2.1
      (by decide) (by decide) (by decide)⟩

/-- Claim C7: the OR filter builds its result line by line in file order,
evaluating keywords one at a time and appending one (stripped) copy of the
line per matching keyword, without deduplication; hence a line containing
N of the M keywords contributes exactly N (stripped) entries. -/
theorem claim_C7_or_duplicates (file keys : List Line) :
    (or_filter file keys =
      file.flatMap (fun log =>
        (keys.filter (fun key => inStr key log)).map
          (fun _ => pyStrip log))) ∧
    (∀ log : Line,
      ((or_filter [log] keys).count (pyStrip log)) =
        (keys.filter (fun key => inStr key log)).length) := by
  refine ⟨or_filter_eq_flatMap file keys, ?_⟩
  intro log
  have h : or_filter [log] keys =
      (keys.filter (fun key => inStr key log)).map (fun _ => pyStrip log) := by
    rw [or_filter_eq_flatMap]
    simp
  rw [h, count_map_const]

/-- Counterexample to claim C8: case restoration does not stop at the
first matching original line.  For the folded matched line `"ab"` and the
original file `["AB", "zAb"]`, both originals' lower-cased forms contain
`"ab"`, and `restore_logs` includes both of them (the inner loop has no
break), while the claim's first-match-only restoration keeps only
`"AB"`. -/
theorem claim_C8_counterexample :
    restore_logs [("ab").toList] [("AB").toList, ("zAb").toList] =
      [("AB").toList, ("zAb").toList] ∧
    restoreFirstSpec [("ab").toList] [("AB").toList, ("zAb").toList] =
      [("AB").toList] ∧
    restore_logs [("ab").toList] [("AB").toList, ("zAb").toList] ≠
      restoreFirstSpec [("ab").toList] [("AB").toList, ("zAb").toList] := by
  refine ⟨by rfl, by rfl, ?_⟩
  decide

/-- Claim C8 (amended): case restoration maps each folded matched line to
*every* original line (scanned in file order) whose lower-cased form
contains the folded line as a substring, appending each such original
stripped — not just the first one, so one folded line can contribute
several original lines. -/
theorem claim_C8_restore_all_matches (file real_file : List Line) :
    restore_logs file real_file =
      file.flatMap (fun low =>
        (real_file.filter (fun log => inStr low (lowerL log))).map pyStrip) :=
  restore_logs_eq_flatMap file real_file

/-- Claim C9 (implicit): when a single-timestamp TimeSpec matches no line,
`parse_by_time` returns the bare sentinel *string* `"Pattern not found"`;
`parse_by_key` then iterates over it character by character (each
character a one-character line), so keywords of length at least two can
never match on that path, and the combined time-plus-key pipeline returns
the sentinel list. -/
theorem claim_C9_sentinel_char_iteration (file : List Line) (time : Line)
    (files : List Line) (k : Line)
    (hsearch : (searchBSD time || searchSD time) = true)
    (hsep : inStr toSepL time = false)
    (hnomatch : file.all (fun log => !inStr time log) = true)
    (hklen : 2 ≤ k.length) :
    parse_by_time file time files = .ok (.str pnf) ∧
    pyIter (.str pnf) = pnf.map (fun c => [c]) ∧
    (∀ c : Char, inStr k [c] = false) ∧
    parse_by_key (.str pnf) [k] = .ok [pnf] ∧
    applyFilters file (some time) (some [k]) files =
      .ok (.strList [pnf]) := by
  have h1 : (!searchBSD time && !searchSD time) = false := by
    have hs2 : searchBSD time = true ∨ searchSD time = true := by
      simpa using hsearch
    rcases hs2 with h | h <;> simp [h]
  have hfilter : file.filter (fun log => inStr time log) = [] := by
    rw [List.filter_eq_nil_iff]
    intro a ha
    have := List.all_eq_true.mp hnomatch a ha
    simp_all
  have hpt : parse_by_time file time files = .ok (.str pnf) := by
    unfold parse_by_time
    simp [h1, hsep, hfilter]
  have hchar : ∀ c : Char, inStr k [c] = false :=
    fun c => inStr_long_singleton k c hklen
  have hkfilter :
      (pnf.map (fun c => [c])).filter (fun log => inStr k log) = [] := by
    rw [List.filter_eq_nil_iff]
    intro a ha
    rcases List.mem_map.mp ha with ⟨c, hc, rfl⟩
    simp [hchar c]
  have hpk : parse_by_key (.str pnf) [k] = .ok [pnf] := by
    unfold parse_by_key
    simp [pyIter, singleKeyFilter, hkfilter, sentinelize]
  refine ⟨hpt, rfl, hchar, hpk, ?_⟩
  have htruthy : truthyStr (some time) = true := by
    cases hne : time with
    | nil =>
      rw [hne] at hsearch
      exact absurd hsearch (by decide)
    | cons c cs => rfl
  have hcond : (truthyStr (some time) && truthyList (some [k])) = true := by
    rw [htruthy]
    rfl
  unfold applyFilters
  simp [hcond, hpt, hpk]

/-- Witness for claim C9: with the timestamp `"Dec 5"` over a file that
never mentions it, and the two-character keyword `"tt"`, the pipeline
returns the sentinel list. -/
theorem claim_C9_sentinel_char_iteration_witness :
    parse_by_time [("abc").toList] (("Dec 5").toList) [['f']] =
      .ok (.str pnf) ∧
    parse_by_key (.str pnf) [("tt").toList] = .ok [pnf] ∧
    applyFilters [("abc").toList] (some (("Dec 5").toList))
      (some [("tt").toList]) [['f']] = .ok (.strList [pnf]) :=
  ⟨(claim_C9_sentinel_char_iteration [("abc").toList] (("Dec 5").toList)
      [['f']] (("tt").toList)
      (by decide) (by decide) (by decide) (by decide)).1,
   (claim_C9_sentinel_char_iteration [("abc").toList] (("Dec 5").toList)
      [['f']] (("tt").toList)
      (by decide) (by decide) (by decide) (by decide)).2.2.2.1,
   (claim_C9_sentinel_char_iteration [("abc").toList] (("Dec 5").toList)
      [['f']] (("tt").toList)
      (by decide) (by decide) (by decide) (by decide)).2.2.2.2⟩

/-- Claim C10 (implicit): in the script variant `src/logc.py`, every
invocation that supplies both a time and a key filter makes `filter_logs`
fail with TypeError before producing any filtered output, because the
combined branch calls `filter_by_parameter(logs, args.time)` without the
required third positional argument; the success path of that branch is
unreachable. -/
theorem claim_C10_combined_filters_type_error (logs : List Line)
    (args : ScriptArgs)
    (ht : truthyStr args.time = true) (hk : truthySKey args.key = true) :
    filter_logs logs args = .error .typeError := by
  unfold filter_logs
  simp [ht, hk]

/-- Witness for claim C10 at a concrete invocation. -/
theorem claim_C10_combined_filters_type_error_witness :
    filter_logs [("Oct 6 x").toList]
        ⟨some (("Oct 6").toList), some (.s ['x']), ['k'], false⟩ =
      .error .typeError :=
  claim_C10_combined_filters_type_error [("Oct 6 x").toList]
    ⟨some (("Oct 6").toList), some (.s ['x']), ['k'], false⟩
    (by decide) (by decide)

end LogCollector
